import Mathlib

/-!
A verification development for the daxfs delta-log filesystem core.

The definitions below are shallow embeddings of the C functions in
`src/kernel/dir.c`, `src/kernel/dax_mem.c` and the file-operations unit
(`daxfs_read_iter` / `daxfs_write_iter`).  Machine integers are modelled
as `Nat` (all quantities involved are sizes, offsets and identifiers that
the code keeps well below overflow), byte buffers and names as `List Nat`,
and the two in-memory red-black-tree indices as function maps: the inode
index keyed by inode number, the dirent index keyed by
`(parent_ino, name)` - the code keys by `(parent_ino, hash)` and
byte-compares the name on hash equality, so the logical key is the pair
`(parent_ino, name)`.  The record-header pointer stored in index entries
is modelled as the record's position in the log together with the record
it dereferences to.
-/

namespace Daxfs

/-- File names and file data are byte lists. -/
abbrev Name := List Nat

/-- A parsed delta-log record, one constructor per `DAXFS_DELTA_*` type
(`daxfs_format.h`): WRITE, CREATE, DELETE, TRUNCATE, MKDIR, RENAME,
SETATTR.  The payload fields mirror `daxfs_delta_write`,
`daxfs_delta_create`, `daxfs_delta_delete`, `daxfs_delta_truncate`,
`daxfs_delta_rename` and `daxfs_delta_setattr`; `len`/`name_len` fields
are the lengths of the embedded lists.  The SETATTR `valid` mask is
modelled by `Option` fields (`none` encodes the C sentinel `(u64)-1` /
`(u32)-1`, i.e. "field not selected"). -/
inductive DeltaRec where
  | write    (ino : Nat) (offset : Nat) (data : List Nat)
  | create   (parentIno : Nat) (newIno : Nat) (mode : Nat) (name : Name)
  | delete   (ino : Nat) (parentIno : Nat) (name : Name)
  | truncate (ino : Nat) (newSize : Nat)
  | mkdir    (parentIno : Nat) (newIno : Nat) (mode : Nat) (name : Name)
  | rename   (ino : Nat) (oldParent : Nat) (newParent : Nat)
             (oldName : Name) (newName : Name)
  | setattr  (ino : Nat) (sizeOpt : Option Nat) (modeOpt : Option Nat)
deriving DecidableEq

/-- `hdr->total_size` as computed at append time: `sizeof(struct
daxfs_delta_hdr)` (4+4+8+8 = 24 bytes) plus the type-specific body and
trailing payload, with the C struct sizes `daxfs_delta_write` = 16,
`daxfs_delta_create` = 24, `daxfs_delta_delete` = 16,
`daxfs_delta_truncate` = 8, `daxfs_delta_rename` = 32,
`daxfs_delta_setattr` = 24.  This is both the number of bytes
`daxfs_delta_alloc` is asked for and the value stored in the header
(`daxfs_delta_append`, `daxfs_write_iter`). -/
def recTotalSize : DeltaRec → Nat
  | .write _ _ data        => 24 + 16 + data.length
  | .create _ _ _ name     => 24 + 24 + name.length
  | .delete _ _ name       => 24 + 16 + name.length
  | .truncate _ _          => 24 + 8
  | .mkdir _ _ _ name      => 24 + 24 + name.length
  | .rename _ _ _ oldN newN => 24 + 32 + oldN.length + newN.length
  | .setattr _ _ _         => 24 + 24

/-- An entry of the in-memory inode index (`struct
daxfs_delta_inode_entry`): the header pointer (modelled as log position
`hdrIdx` plus the record it points at), the `deleted` flag and the
cached `size` and `mode`. -/
structure InodeEntry where
  hdrIdx : Nat
  record : DeltaRec
  deleted : Bool
  size : Nat
  mode : Nat
deriving DecidableEq

/-- An entry of the in-memory dirent index (`struct
daxfs_delta_dirent_entry`): header pointer and `deleted` flag (the key
fields `parent_ino`, `name_hash`, `name` are the map key). -/
structure DirentEntry where
  hdrIdx : Nat
  record : DeltaRec
  deleted : Bool
deriving DecidableEq

/-- The inode index as a map `ino -> entry`. -/
abbrev InodeIdx := Nat → Option InodeEntry

/-- The dirent index as a map `(parent_ino, name) -> entry`. -/
abbrev DirentIdx := Nat → Name → Option DirentEntry

def emptyInodeIdx : InodeIdx := fun _ => none

def emptyDirentIdx : DirentIdx := fun _ _ => none

/-- `index_add_inode` (dir.c): insert-or-update.  On an existing entry
the header and `deleted` flag are overwritten and `size`/`mode` are
overwritten only when not the `-1` sentinel (here: when `some`); a fresh
entry defaults the unselected fields to 0 (`kzalloc` plus the
conditional assignment). -/
def index_add_inode (idx : InodeIdx) (ino : Nat) (hdrIdx : Nat)
    (record : DeltaRec) (deleted : Bool)
    (sizeOpt : Option Nat) (modeOpt : Option Nat) : InodeIdx :=
  fun k =>
    if k = ino then
      match idx ino with
      | some e => some ⟨hdrIdx, record, deleted, sizeOpt.getD e.size, modeOpt.getD e.mode⟩
      | none   => some ⟨hdrIdx, record, deleted, sizeOpt.getD 0, modeOpt.getD 0⟩
    else idx k

/-- `index_add_dirent` (dir.c): insert-or-update keyed by
`(parent_ino, name)`; the update overwrites the header pointer and the
`deleted` flag. -/
def index_add_dirent (idx : DirentIdx) (parentIno : Nat) (name : Name)
    (hdrIdx : Nat) (record : DeltaRec) (deleted : Bool) : DirentIdx :=
  fun p n =>
    if p = parentIno ∧ n = name then some ⟨hdrIdx, record, deleted⟩
    else idx p n

/-- The inode-index half of the per-type `switch` shared by
`daxfs_delta_append` and `daxfs_delta_build_index` (dir.c): CREATE/MKDIR
add `(new_ino, deleted=false, size=0, mode)`; DELETE marks
`(ino, deleted=true)` keeping size and mode; TRUNCATE sets
`size=new_size`; WRITE sets `size=offset+len`; SETATTR sets the fields
selected by the `valid` mask; RENAME does not touch the inode index. -/
def inodeIndexUpdate (hdrIdx : Nat) (r : DeltaRec) (ii : InodeIdx) : InodeIdx :=
  match r with
  | .create _ newIno mode _ =>
      index_add_inode ii newIno hdrIdx r false (some 0) (some mode)
  | .mkdir _ newIno mode _ =>
      index_add_inode ii newIno hdrIdx r false (some 0) (some mode)
  | .delete ino _ _ =>
      index_add_inode ii ino hdrIdx r true none none
  | .truncate ino newSize =>
      index_add_inode ii ino hdrIdx r false (some newSize) none
  | .write ino offset data =>
      index_add_inode ii ino hdrIdx r false (some (offset + data.length)) none
  | .setattr ino sizeOpt modeOpt =>
      index_add_inode ii ino hdrIdx r false sizeOpt modeOpt
  | .rename _ _ _ _ _ => ii

/-- The dirent-index half of the same `switch`: CREATE/MKDIR add
`((parent, name), deleted=false)`; DELETE marks `((parent, name),
deleted=true)`; RENAME marks the old `(parent, name)` deleted then adds
the new one; WRITE/TRUNCATE/SETATTR do not touch the dirent index. -/
def direntIndexUpdate (hdrIdx : Nat) (r : DeltaRec) (di : DirentIdx) : DirentIdx :=
  match r with
  | .create parentIno _ _ name =>
      index_add_dirent di parentIno name hdrIdx r false
  | .mkdir parentIno _ _ name =>
      index_add_dirent di parentIno name hdrIdx r false
  | .delete _ parentIno name =>
      index_add_dirent di parentIno name hdrIdx r true
  | .rename _ oldParent newParent oldName newName =>
      index_add_dirent (index_add_dirent di oldParent oldName hdrIdx r true)
        newParent newName hdrIdx r false
  | .write _ _ _ => di
  | .truncate _ _ => di
  | .setattr _ _ _ => di

/-- One step of the index-construction fold: apply both index updates of
a record found at log position `hdrIdx`. -/
def deltaIndexUpdate (hdrIdx : Nat) (r : DeltaRec)
    (ii : InodeIdx) (di : DirentIdx) : InodeIdx × DirentIdx :=
  (inodeIndexUpdate hdrIdx r ii, direntIndexUpdate hdrIdx r di)

/-- Fold the index updates of a list of (position, record) pairs, in log
order, over existing indices. -/
def buildFold (ps : List (Nat × DeltaRec)) (ii : InodeIdx) (di : DirentIdx) :
    InodeIdx × DirentIdx :=
  ps.foldl (fun acc p => deltaIndexUpdate p.1 p.2 acc.1 acc.2) (ii, di)

/-- `daxfs_delta_build_index` (dir.c): scan the branch's delta log in
order and apply the per-type index updates to the current indices (the
function does not clear them first).  The raw-byte scan's stop
conditions (`total_size == 0`, overrun) delimit the record list; here
the log is already the list of parsed records of the valid prefix. -/
def daxfs_delta_build_index (log : List DeltaRec) (ii : InodeIdx)
    (di : DirentIdx) : InodeIdx × DirentIdx :=
  buildFold log.enum ii di

/-- The inode index a branch's maintained index holds after the records
of `log` have been appended: `daxfs_delta_append` applies exactly the
same per-record updates as `daxfs_delta_build_index`. -/
def branchInodeIdx (log : List DeltaRec) : InodeIdx :=
  (daxfs_delta_build_index log emptyInodeIdx emptyDirentIdx).1

/-- The dirent index corresponding to `log`, as `branchInodeIdx`. -/
def branchDirentIdx (log : List DeltaRec) : DirentIdx :=
  (daxfs_delta_build_index log emptyInodeIdx emptyDirentIdx).2

/-- `daxfs_delta_is_deleted` (dir.c): look the inode up in the inode
index; a hit returns the entry's `deleted` flag, a miss returns false. -/
def daxfs_delta_is_deleted (log : List DeltaRec) (ino : Nat) : Bool :=
  match branchInodeIdx log ino with
  | some e => e.deleted
  | none => false

/-- A branch's delta-log state: the records already in the log (in
append order), the used-bytes counter `delta_size` (mirrored to the
persisted `delta_log_size`) and `delta_capacity`. -/
structure Branch where
  log : List DeltaRec
  deltaSize : Nat
  deltaCapacity : Nat
deriving DecidableEq

/-- A branch freshly forked: empty log, `delta_log_size = 0`. -/
def freshBranch (cap : Nat) : Branch := ⟨[], 0, cap⟩

/-- `daxfs_delta_alloc` (dir.c): under the allocation lock, fail when
`delta_size + size > delta_capacity`, leaving every field untouched;
otherwise bump `delta_size` (and the persisted `delta_log_size`) and
hand out the slot at the old end of the log.  The returned flag is
whether a slot was produced (C: non-NULL pointer). -/
def daxfs_delta_alloc (b : Branch) (size : Nat) : Bool × Branch :=
  if b.deltaSize + size > b.deltaCapacity then (false, b)
  else (true, { b with deltaSize := b.deltaSize + size })

/-- `daxfs_delta_append` (dir.c): compute `total_size`, allocate a slot
(on failure return `-ENOSPC` with the branch unchanged), write the
header and payload into the slot - modelled as appending the parsed
record to `log` - and apply the per-type index updates (tracked here
through `branchInodeIdx`/`branchDirentIdx` of the grown log).  The
returned flag is success (C: return 0) versus `-ENOSPC`. -/
def daxfs_delta_append (b : Branch) (r : DeltaRec) : Bool × Branch :=
  let res := daxfs_delta_alloc b (recTotalSize r)
  if res.1 then (true, { res.2 with log := res.2.log ++ [r] })
  else (false, res.2)

/-- Apply a sequence of append requests; a failed append leaves the
branch as it was (the C caller receives the error and the state is
untouched). -/
def applyAppends (b : Branch) (rs : List DeltaRec) : Branch :=
  rs.foldl (fun b r => (daxfs_delta_append b r).2) b

/-- Sum of `hdr->total_size` over the records of a log. -/
def sumTotal (log : List DeltaRec) : Nat :=
  (log.map recTotalSize).sum

/-- `daxfs_write_iter` (file operations): a zero-length write returns 0
without touching the log; otherwise allocate
`sizeof(hdr) + sizeof(daxfs_delta_write) + len` bytes (on failure
`-ENOSPC`, branch unchanged) and fill in a WRITE record.  The result is
`some` bytes-written or `none` for the error, with the new branch
state. -/
def daxfs_write_iter (b : Branch) (ino : Nat) (pos : Nat) (data : List Nat) :
    Option Nat × Branch :=
  if data.length = 0 then (some 0, b)
  else
    let res := daxfs_delta_alloc b (24 + 16 + data.length)
    if res.1 then (some data.length, { res.2 with log := res.2.log ++ [.write ino pos data] })
    else (none, res.2)

/-- A base-image inode (`struct daxfs_base_inode`) with its directory
membership: the sibling chain `first_child`/`next_sibling` of a
well-formed image is modelled by listing the nodes in chain order, each
carrying its `parent_ino`; the children of a directory are the nodes
with that parent, in list order. -/
structure BaseNode where
  ino : Nat
  parent : Nat
  name : Name
  mode : Nat
  size : Nat
  data : List Nat
deriving DecidableEq

/-- The optional base image: its inode table in order. -/
structure BaseImg where
  nodes : List BaseNode
deriving DecidableEq

/-- The `first_child`/`next_sibling` walk under `parent`. -/
def baseChildren (img : BaseImg) (parent : Nat) : List BaseNode :=
  img.nodes.filter (fun c => c.parent = parent)

/-- The inner loop of the base-image walk in `daxfs_name_exists`:
compare each child's name bytes; first match wins. -/
def baseFindChild : List BaseNode → Name → Option BaseNode
  | [], _ => none
  | c :: rest, name =>
      if c.name = name then some c else baseFindChild rest name

/-- The delta-chain phase of `daxfs_name_exists` (dir.c): walk branches
leaf to root; on a dirent-index hit, a DELETE record returns
not-exists, a CREATE/MKDIR record returns exists with `cr->new_ino`,
and any other record type (in particular RENAME) is not handled - the
loop body simply continues with the parent branch.  `none` means no
branch decided; `some none` not-exists; `some (some ino)` exists. -/
def nameExistsDelta (chain : List (List DeltaRec)) (parent : Nat) (name : Name) :
    Option (Option Nat) :=
  match chain with
  | [] => none
  | log :: rest =>
      match branchDirentIdx log parent name with
      | some entry =>
          match entry.record with
          | .delete _ _ _ => some none
          | .create _ newIno _ _ => some (some newIno)
          | .mkdir _ newIno _ _ => some (some newIno)
          | _ => nameExistsDelta rest parent name
      | none => nameExistsDelta rest parent name

/-- `daxfs_name_exists` (dir.c): the delta-chain phase above, then the
base image: walk the sibling chain under `parent`; on a name match,
return not-exists if any branch in the chain has the child inode marked
deleted, else exists with the child's inode number.  `some ino` is
"exists with ino", `none` is "does not exist". -/
def daxfs_name_exists (chain : List (List DeltaRec)) (base : Option BaseImg)
    (parent : Nat) (name : Name) : Option Nat :=
  match nameExistsDelta chain parent name with
  | some decision => decision
  | none =>
      match base with
      | none => none
      | some img =>
          match baseFindChild (baseChildren img parent) name with
          | none => none
          | some c =>
              if chain.any (fun log => daxfs_delta_is_deleted log c.ino) then none
              else some c.ino

/-- Result of `daxfs_resolve_inode`: `-ENOENT`, deleted, or the
`{mode, size}` pair read from an index entry or base inode. -/
inductive ResolveAns where
  | noent
  | deleted
  | found (mode : Nat) (size : Nat)
deriving DecidableEq

/-- The base-image fallback of `daxfs_resolve_inode` (dir.c): a valid
slot (`ino <= base_inode_count`, modelled as membership in the inode
table) yields the base inode's mode and size, else `-ENOENT`. -/
def daxfs_base_resolve (base : Option BaseImg) (ino : Nat) : ResolveAns :=
  match base with
  | none => .noent
  | some img =>
      match img.nodes.find? (fun n => n.ino = ino) with
      | some n => .found n.mode n.size
      | none => .noent

/-- `daxfs_resolve_inode` (dir.c): walk the chain leaf to root; in each
branch, `daxfs_delta_is_deleted` first, then an inode-index hit returns
deleted for a DELETE record and otherwise the entry's mode and size;
with no hit anywhere, fall back to the base image. -/
def daxfs_resolve_inode (chain : List (List DeltaRec)) (base : Option BaseImg)
    (ino : Nat) : ResolveAns :=
  match chain with
  | [] => daxfs_base_resolve base ino
  | log :: rest =>
      if daxfs_delta_is_deleted log ino then .deleted
      else
        match branchInodeIdx log ino with
        | some e =>
            match e.record with
            | .delete _ _ _ => .deleted
            | _ => .found e.mode e.size
        | none => daxfs_resolve_inode rest base ino

/-- The per-branch scan of `daxfs_resolve_file_data` (dir.c): iterate
the log from the start; the FIRST record that is a WRITE for `ino`
whose range covers `pos` is taken, yielding the record's data from
`pos - wr_offset` on (`avail = wr_len - data_off` bytes, here the
remainder of the list). -/
def resolveBranchData : List DeltaRec → Nat → Nat → Option (List Nat)
  | [], _, _ => none
  | r :: rest, ino, pos =>
      match r with
      | .write wino wrOffset data =>
          if wino = ino ∧ wrOffset ≤ pos ∧ pos < wrOffset + data.length then
            some (data.drop (pos - wrOffset))
          else resolveBranchData rest ino pos
      | _ => resolveBranchData rest ino pos

/-- The chain walk of `daxfs_resolve_file_data`: leaf to root, first
branch with a covering WRITE wins. -/
def resolveChainData : List (List DeltaRec) → Nat → Nat → Option (List Nat)
  | [], _, _ => none
  | log :: rest, ino, pos =>
      match resolveBranchData log ino pos with
      | some avail => some avail
      | none => resolveChainData rest ino pos

/-- `daxfs_resolve_file_data` (dir.c): chain scan first; on a hit the
visible bytes are the record's available bytes clamped to `len`
(`out_len = min(len, avail)`).  Otherwise fall back to base-image data:
`pos >= file_size` yields nothing (`out_len = 0`), else the base data
from `pos`, clamped to `min(len, size - pos)`. -/
def daxfs_resolve_file_data (chain : List (List DeltaRec)) (base : Option BaseImg)
    (ino : Nat) (pos : Nat) (len : Nat) : Option (List Nat) :=
  match resolveChainData chain ino pos with
  | some avail => some (avail.take len)
  | none =>
      match base with
      | none => none
      | some img =>
          match img.nodes.find? (fun n => n.ino = ino) with
          | some n =>
              if pos ≥ n.size then none
              else some (((n.data.take n.size).drop pos).take len)
          | none => none

/-- The chunk loop of `daxfs_read_iter`: while bytes remain, resolve a
chunk at the current position and append it; a missing or empty chunk
ends the loop.  Each successful chunk is nonempty, so `fuel = count`
bounds the iterations of the C `while (count > 0)` loop. -/
def readLoop (chain : List (List DeltaRec)) (base : Option BaseImg) (ino : Nat) :
    Nat → Nat → Nat → List Nat → List Nat
  | 0, _, _, acc => acc
  | _ + 1, _, 0, acc => acc
  | fuel + 1, pos, count, acc =>
      match daxfs_resolve_file_data chain base ino pos count with
      | none => acc
      | some chunk =>
          if chunk.length = 0 then acc
          else readLoop chain base ino fuel (pos + chunk.length)
                 (count - chunk.length) (acc ++ chunk)

/-- `daxfs_read_iter` (file operations): nothing past `i_size`; clamp
the count to `i_size - pos`; then run the chunk loop. -/
def daxfs_read_iter (chain : List (List DeltaRec)) (base : Option BaseImg)
    (ino : Nat) (iSize : Nat) (pos : Nat) (len : Nat) : List Nat :=
  if pos ≥ iSize then []
  else
    let count := min len (iSize - pos)
    readLoop chain base ino count pos count []

/-- The super-level allocator state used by `daxfs_mem_alloc_region`
(dax_mem.c): the delta region's offset and size from the superblock and
the bump offset `delta_alloc_offset`. -/
structure DaxSuper where
  deltaRegionOffset : Nat
  deltaRegionSize : Nat
  deltaAllocOffset : Nat
deriving DecidableEq

/-- `daxfs_mem_alloc_region` (dax_mem.c): under the allocation lock,
compute `end = offset + size` and `region_end`; fail (C: return 0)
when `end > region_end`, leaving the bump offset untouched; otherwise
advance the bump offset (in memory and in the superblock) and return
the old offset. -/
def daxfs_mem_alloc_region (info : DaxSuper) (size : Nat) : Option Nat × DaxSuper :=
  let offset := info.deltaAllocOffset
  let endOff := offset + size
  let regionEnd := info.deltaRegionOffset + info.deltaRegionSize
  if endOff > regionEnd then (none, info)
  else (some offset, { info with deltaAllocOffset := endOff })

/-- The primitive steps of a successful append, in the order the code
performs them.  `publishSize` is the store
`branch->delta_size = new_size; on_dax->delta_log_size = new_size`
performed inside `daxfs_delta_alloc` before it returns (dir.c);
`writeBytes` is the header-field stores and payload `memcpy` done by
the caller (`daxfs_delta_append`, or `daxfs_write_iter` for WRITE
records) after `daxfs_delta_alloc` has returned; the two index events
are the subsequent `index_add_inode` / `index_add_dirent` calls. -/
inductive AppendEvent where
  | publishSize
  | writeBytes
  | updateInodeIndex
  | updateDirentIndex
deriving DecidableEq

/-- The order in which `daxfs_delta_append` (via `daxfs_delta_alloc`)
performs the steps of a successful append, read off the source:
`daxfs_delta_alloc` bumps and persists the size counter and returns,
then the caller writes the record bytes, then updates the indices. -/
def daxfs_delta_append_order : List AppendEvent :=
  [.publishSize, .writeBytes, .updateInodeIndex, .updateDirentIndex]

/-- What an observer racing with an append can see of the record slot:
whether the new `delta_log_size` is visible, whether the record's bytes
are in place, and whether both index updates have happened. -/
structure AppendObs where
  sizePublished : Bool
  bytesInPlace : Bool
  inodeIndexed : Bool
  direntIndexed : Bool
deriving DecidableEq

/-- Effect of one append step on the observable state. -/
def appendStep (s : AppendObs) : AppendEvent → AppendObs
  | .publishSize => { s with sizePublished := true }
  | .writeBytes => { s with bytesInPlace := true }
  | .updateInodeIndex => { s with inodeIndexed := true }
  | .updateDirentIndex => { s with direntIndexed := true }

/-- The observable state after the first `k` steps of an append. -/
def appendObsAfter (k : Nat) : AppendObs :=
  (daxfs_delta_append_order.take k).foldl appendStep ⟨false, false, false, false⟩

/-- The claim's requirement on a step order: the size bump is performed
only after the bytes and both index updates are in place, i.e. it is
the last step. -/
def publishIsLast (order : List AppendEvent) : Prop :=
  order.getLast? = some .publishSize

/-- `index_add_inode` with the outcome of its `kzalloc(GFP_ATOMIC)`
made explicit (dir.c): the update path of an existing entry allocates
nothing; inserting a fresh entry fails with `-ENOMEM` when the
non-blocking allocation fails, leaving the index unchanged.  The
`Int` result is the C return value (0 or `-ENOMEM = -12`). -/
def index_add_inode_alloc (allocOk : Bool) (idx : InodeIdx) (ino : Nat)
    (hdrIdx : Nat) (record : DeltaRec) (deleted : Bool)
    (sizeOpt : Option Nat) (modeOpt : Option Nat) : InodeIdx × Int :=
  match idx ino with
  | some _ => (index_add_inode idx ino hdrIdx record deleted sizeOpt modeOpt, 0)
  | none =>
      if allocOk then
        (index_add_inode idx ino hdrIdx record deleted sizeOpt modeOpt, 0)
      else (idx, -12)

/-- `index_add_dirent` with its `kzalloc`/`kmemdup` outcome made
explicit, as `index_add_inode_alloc`. -/
def index_add_dirent_alloc (allocOk : Bool) (idx : DirentIdx) (parentIno : Nat)
    (name : Name) (hdrIdx : Nat) (record : DeltaRec) (deleted : Bool) :
    DirentIdx × Int :=
  match idx parentIno name with
  | some _ => (index_add_dirent idx parentIno name hdrIdx record deleted, 0)
  | none =>
      if allocOk then
        (index_add_dirent idx parentIno name hdrIdx record deleted, 0)
      else (idx, -12)

/-- `daxfs_delta_append` (dir.c) with the index-node allocation outcome
made explicit, returning the value the VFS caller receives together
with the new branch state and indices.  The source calls
`index_add_inode` / `index_add_dirent` as bare statements and never
examines their return values, so the `Int` error slot of
`index_add_*_alloc` is dropped here exactly as the C drops it, and the
function returns 0. -/
def daxfs_delta_append_alloc (allocOk : Bool) (b : Branch) (ii : InodeIdx)
    (di : DirentIdx) (r : DeltaRec) : Int × Branch × InodeIdx × DirentIdx :=
  let res := daxfs_delta_alloc b (recTotalSize r)
  if res.1 then
    let b2 : Branch := { res.2 with log := res.2.log ++ [r] }
    let hdrIdx := b.log.length
    match r with
    | .create parentIno newIno mode name =>
        let ri := index_add_inode_alloc allocOk ii newIno hdrIdx r false (some 0) (some mode)
        let rd := index_add_dirent_alloc allocOk di parentIno name hdrIdx r false
        (0, b2, ri.1, rd.1)
    | .mkdir parentIno newIno mode name =>
        let ri := index_add_inode_alloc allocOk ii newIno hdrIdx r false (some 0) (some mode)
        let rd := index_add_dirent_alloc allocOk di parentIno name hdrIdx r false
        (0, b2, ri.1, rd.1)
    | .delete ino parentIno name =>
        let ri := index_add_inode_alloc allocOk ii ino hdrIdx r true none none
        let rd := index_add_dirent_alloc allocOk di parentIno name hdrIdx r true
        (0, b2, ri.1, rd.1)
    | .truncate ino newSize =>
        let ri := index_add_inode_alloc allocOk ii ino hdrIdx r false (some newSize) none
        (0, b2, ri.1, di)
    | .write ino offset data =>
        let ri := index_add_inode_alloc allocOk ii ino hdrIdx r false
          (some (offset + data.length)) none
        (0, b2, ri.1, di)
    | .setattr ino sizeOpt modeOpt =>
        let ri := index_add_inode_alloc allocOk ii ino hdrIdx r false sizeOpt modeOpt
        (0, b2, ri.1, di)
    | .rename _ oldParent newParent oldName newName =>
        let rd1 := index_add_dirent_alloc allocOk di oldParent oldName hdrIdx r true
        let rd2 := index_add_dirent_alloc allocOk rd1.1 newParent newName hdrIdx r false
        (0, b2, ii, rd2.1)
  else (-28, res.2, ii, di)

/-! Per-key views of the index updates, used to reason about
`daxfs_delta_build_index`.  Each record contributes at most one update
to the inode index and at most two (RENAME) to the dirent index; the
fold of a log over an index is, at each key, the fold of that key's
updates over the key's entry. -/

/-- One inode-index update as `index_add_inode` receives it. -/
structure IOp where
  hdrIdx : Nat
  record : DeltaRec
  deleted : Bool
  sizeOpt : Option Nat
  modeOpt : Option Nat
deriving DecidableEq

/-- The size an update reads from the current entry: 0 for a fresh
entry (`kzalloc`), the stored size otherwise. -/
def sizeD : Option InodeEntry → Nat
  | none => 0
  | some e => e.size

/-- As `sizeD`, for the mode field. -/
def modeD : Option InodeEntry → Nat
  | none => 0
  | some e => e.mode

/-- The entry produced by one `index_add_inode` call on the current
entry: header, record and `deleted` always overwritten, size and mode
overwritten only when selected. -/
def applyIOp (o : IOp) (x : Option InodeEntry) : InodeEntry :=
  ⟨o.hdrIdx, o.record, o.deleted, o.sizeOpt.getD (sizeD x), o.modeOpt.getD (modeD x)⟩

/-- Fold a key's inode updates, oldest first, over the key's entry. -/
def applyIOps (l : List IOp) (x : Option InodeEntry) : Option InodeEntry :=
  l.foldl (fun x o => some (applyIOp o x)) x

/-- The inode-index update contributed by a (position, record) pair:
the target inode and the `index_add_inode` arguments (mirror of
`inodeIndexUpdate`); RENAME contributes none. -/
def inodeOpOf (p : Nat × DeltaRec) : Option (Nat × IOp) :=
  match p.2 with
  | .create _ newIno mode _ => some (newIno, ⟨p.1, p.2, false, some 0, some mode⟩)
  | .mkdir _ newIno mode _ => some (newIno, ⟨p.1, p.2, false, some 0, some mode⟩)
  | .delete ino _ _ => some (ino, ⟨p.1, p.2, true, none, none⟩)
  | .truncate ino newSize => some (ino, ⟨p.1, p.2, false, some newSize, none⟩)
  | .write ino offset data =>
      some (ino, ⟨p.1, p.2, false, some (offset + data.length), none⟩)
  | .setattr ino sizeOpt modeOpt => some (ino, ⟨p.1, p.2, false, sizeOpt, modeOpt⟩)
  | .rename _ _ _ _ _ => none

/-- The inode updates of a log that target inode `k`, in log order. -/
def iopsFor (k : Nat) (ps : List (Nat × DeltaRec)) : List IOp :=
  ps.filterMap (fun p =>
    match inodeOpOf p with
    | some q => if q.1 = k then some q.2 else none
    | none => none)

/-- The last selected size among a key's updates, if any. -/
def lastSizeOpt (l : List IOp) : Option Nat :=
  (l.filterMap IOp.sizeOpt).getLast?

/-- The last selected mode among a key's updates, if any. -/
def lastModeOpt (l : List IOp) : Option Nat :=
  (l.filterMap IOp.modeOpt).getLast?

/-- The inode-index component of the index-construction fold. -/
def iFold (ps : List (Nat × DeltaRec)) (ii : InodeIdx) : InodeIdx :=
  ps.foldl (fun ii p => inodeIndexUpdate p.1 p.2 ii) ii

/-- The dirent-index component of the index-construction fold. -/
def dFold (ps : List (Nat × DeltaRec)) (di : DirentIdx) : DirentIdx :=
  ps.foldl (fun di p => direntIndexUpdate p.1 p.2 di) di

/-- One dirent-index update as `index_add_dirent` receives it. -/
structure DOp where
  hdrIdx : Nat
  record : DeltaRec
  deleted : Bool
deriving DecidableEq

/-- A dirent key. -/
abbrev DKey := Nat × Name

/-- The dirent-index updates contributed by a (position, record) pair,
in the order `direntIndexUpdate` performs them. -/
def direntOpsOf (p : Nat × DeltaRec) : List (DKey × DOp) :=
  match p.2 with
  | .create parentIno _ _ name => [((parentIno, name), ⟨p.1, p.2, false⟩)]
  | .mkdir parentIno _ _ name => [((parentIno, name), ⟨p.1, p.2, false⟩)]
  | .delete _ parentIno name => [((parentIno, name), ⟨p.1, p.2, true⟩)]
  | .rename _ oldParent newParent oldName newName =>
      [((oldParent, oldName), ⟨p.1, p.2, true⟩),
       ((newParent, newName), ⟨p.1, p.2, false⟩)]
  | .write _ _ _ => []
  | .truncate _ _ => []
  | .setattr _ _ _ => []

/-- Apply one keyed dirent update. -/
def dApplyOne (di : DirentIdx) (ko : DKey × DOp) : DirentIdx :=
  index_add_dirent di ko.1.1 ko.1.2 ko.2.hdrIdx ko.2.record ko.2.deleted

/-- Fold a flat list of keyed dirent updates over a dirent index. -/
def dFoldOps (ops : List (DKey × DOp)) (di : DirentIdx) : DirentIdx :=
  ops.foldl dApplyOne di

/-- The dirent updates of a flat op list that target key `(p, n)`. -/
def dopsFor (p : Nat) (n : Name) (ops : List (DKey × DOp)) : List DOp :=
  ops.filterMap (fun ko => if p = ko.1.1 ∧ n = ko.1.2 then some ko.2 else none)

/-- Fold a key's dirent updates over the key's entry; every update
overwrites the whole value. -/
def applyDOps (l : List DOp) (x : Option DirentEntry) : Option DirentEntry :=
  l.foldl (fun _ o => some ⟨o.hdrIdx, o.record, o.deleted⟩) x

/-! ## Theorems -/

/-- Claim C1.  The claim states that after a RENAME of
`(old_parent, old_name)` to `(new_parent, new_name)` for inode `i`,
lookups decide by the rename's produced side: the old name resolves to
NOENT and the new name to inode `i`.  The code does the opposite:
`daxfs_name_exists` only treats DELETE and CREATE/MKDIR dirent-index
hits as decisive and falls through on a RENAME record.  Concretely,
with a base image holding `foo` as inode 5 under the root and a branch
log consisting of `RENAME(1,foo -> 1,bar, ino 5)`, looking up `bar`
returns not-exists and looking up `foo` still returns inode 5; and for
a file created inside the branch and then renamed, the new name also
resolves to not-exists. -/
theorem name_exists_ignores_rename :
    daxfs_name_exists [[.rename 5 1 1 [102,111,111] [98,97,114]]]
        (some ⟨[⟨1,0,[],16877,0,[]⟩, ⟨5,1,[102,111,111],33188,3,[104,105,33]⟩]⟩)
        1 [98,97,114] = none
    ∧ daxfs_name_exists [[.rename 5 1 1 [102,111,111] [98,97,114]]]
        (some ⟨[⟨1,0,[],16877,0,[]⟩, ⟨5,1,[102,111,111],33188,3,[104,105,33]⟩]⟩)
        1 [102,111,111] = some 5
    ∧ daxfs_name_exists
        [[.create 1 2 33188 [102,111,111], .rename 2 1 1 [102,111,111] [98,97,114]]]
        none 1 [98,97,114] = none := by
  refine ⟨?_, ?_, ?_⟩ <;> decide

/-- Claim C2.  The claim states that when several WRITE records of the
current branch cover a position, `daxfs_resolve_file_data` returns the
data of the record appended last, so that writing `AAAA` at offset 0
and then `BB` at offset 2 makes a 4-byte read at offset 0 return
`AABB`.  The code scans the log from the start and returns the FIRST
covering WRITE record, so the earliest record wins: the read returns
`AAAA`. -/
theorem resolve_file_data_first_wins :
    daxfs_read_iter [[.write 2 0 [65,65,65,65], .write 2 2 [66,66]]] none 2 4 0 4
        = [65,65,65,65]
    ∧ [65,65,65,65] ≠ [65,65,66,66] := by
  refine ⟨?_, ?_⟩ <;> decide

/-- Claim C3.  The claim states a write/read round trip: writing a
buffer at `pos` and reading it back at `pos` from the same branch
returns the buffer, for every prior state of the branch's delta log.
The code refutes it when an earlier record already covers `pos`: with
prior log `WRITE(0, AAAA)` (44 bytes used), a write of `BB` at offset 2
succeeds (returns 2), but the subsequent 2-byte read at offset 2
returns `AA` from the older record, not `BB`. -/
theorem write_read_roundtrip_fails :
    (daxfs_write_iter ⟨[.write 2 0 [65,65,65,65]], 44, 4096⟩ 2 2 [66,66]).1 = some 2
    ∧ daxfs_read_iter
        [(daxfs_write_iter ⟨[.write 2 0 [65,65,65,65]], 44, 4096⟩ 2 2 [66,66]).2.log]
        none 2 4 2 2 = [65,65]
    ∧ [65,65] ≠ [66,66] := by
  refine ⟨?_, ?_, ?_⟩ <;> decide

/-- Claim C4.  The claim states that the `delta_log_size` bump is
performed only after the record's bytes and both index entries are in
place.  In the code the bump is the FIRST step: `daxfs_delta_alloc`
stores the new size (in memory and on storage) before returning, and
the caller writes the header, payload and index entries afterwards; so
after the first step of an append an observer sees the new size while
neither the bytes nor the index entries are in place, and the publish
step is not the last step of the order. -/
theorem publish_precedes_bytes :
    appendObsAfter 1 = ⟨true, false, false, false⟩
    ∧ ¬ publishIsLast daxfs_delta_append_order
    ∧ daxfs_delta_append_order.head? = some .publishSize := by
  refine ⟨by decide, ?_, by decide⟩
  unfold publishIsLast daxfs_delta_append_order
  decide

/-- Claim C5.  The claim states that a failed non-blocking allocation
of an index node makes the operation return NOMEM to the VFS caller.
In the code `index_add_inode`/`index_add_dirent` do return `-ENOMEM`,
but `daxfs_delta_append` ignores their return values: with the
allocation failing, appending a CREATE record returns 0 (success) while
neither the inode index nor the dirent index contains the new entry. -/
theorem append_swallows_nomem :
    (daxfs_delta_append_alloc false ⟨[],0,4096⟩ emptyInodeIdx emptyDirentIdx
        (.create 1 2 420 [102,111,111])).1 = 0
    ∧ ((daxfs_delta_append_alloc false ⟨[],0,4096⟩ emptyInodeIdx emptyDirentIdx
        (.create 1 2 420 [102,111,111])).2.2.1 2) = none
    ∧ ((daxfs_delta_append_alloc false ⟨[],0,4096⟩ emptyInodeIdx emptyDirentIdx
        (.create 1 2 420 [102,111,111])).2.2.2 1 [102,111,111]) = none
    ∧ (0 : Int) ≠ -12 := by
  refine ⟨?_, ?_, ?_, ?_⟩ <;> decide

/-- Claim C6.  The claim states that a WRITE record leaves the indexed
size at `max(previous size, offset + len)`, never shrinking it.  The
index update for WRITE (`daxfs_delta_build_index` and the WRITE case of
`daxfs_delta_append`) stores `offset + len` unconditionally: after
`WRITE(0, len 10)` the indexed size is 10, but a following
`WRITE(0, len 4)` shrinks it to 4 instead of `max 10 4 = 10`. -/
theorem write_index_shrinks_size :
    ((branchInodeIdx [.write 2 0 (List.replicate 10 7)] 2).map InodeEntry.size) = some 10
    ∧ ((branchInodeIdx [.write 2 0 (List.replicate 10 7),
          .write 2 0 (List.replicate 4 7)] 2).map InodeEntry.size) = some 4
    ∧ (4 : Nat) ≠ max 10 4 := by
  refine ⟨?_, ?_, ?_⟩ <;> decide

/-- Claim C7.  `daxfs_mem_alloc_region` fails exactly when the
requested end offset exceeds the delta region's end, and a failure
leaves the super-level bump offset (indeed the whole allocator state)
unchanged; likewise a branch-level append whose record does not fit in
`delta_log_capacity` fails, and a failed append leaves the branch state
(log and size counter) unchanged. -/
theorem alloc_failure_leaves_state (info : DaxSuper) (size : Nat)
    (b : Branch) (r : DeltaRec) :
    ((daxfs_mem_alloc_region info size).1 = none ↔
        info.deltaAllocOffset + size > info.deltaRegionOffset + info.deltaRegionSize)
    ∧ ((daxfs_mem_alloc_region info size).1 = none →
        (daxfs_mem_alloc_region info size).2 = info)
    ∧ ((daxfs_delta_append b r).1 = false ↔
        b.deltaSize + recTotalSize r > b.deltaCapacity)
    ∧ ((daxfs_delta_append b r).1 = false → (daxfs_delta_append b r).2 = b) := by
  refine ⟨?_, ?_, ?_, ?_⟩ <;>
    simp only [daxfs_mem_alloc_region, daxfs_delta_append, daxfs_delta_alloc] <;>
    split <;> simp_all

/-- Witness for C7 at a concrete exhausted allocator and a concrete
full branch. -/
theorem alloc_failure_leaves_state_witness :
    (daxfs_mem_alloc_region ⟨4096, 100, 4100⟩ 200).1 = none
    ∧ (daxfs_mem_alloc_region ⟨4096, 100, 4100⟩ 200).2 = ⟨4096, 100, 4100⟩
    ∧ (daxfs_delta_append ⟨[], 0, 10⟩ (.truncate 1 0)).1 = false
    ∧ (daxfs_delta_append ⟨[], 0, 10⟩ (.truncate 1 0)).2 = ⟨[], 0, 10⟩ := by
  have h := alloc_failure_leaves_state ⟨4096, 100, 4100⟩ 200 ⟨[], 0, 10⟩ (.truncate 1 0)
  have h1 := h.1.mpr (by decide)
  have h3 := h.2.2.1.mpr (by decide)
  exact ⟨h1, h.2.1 h1, h3, h.2.2.2 h3⟩

/-- `sumTotal` of a log grown by one record. -/
theorem sumTotal_append (log : List DeltaRec) (r : DeltaRec) :
    sumTotal (log ++ [r]) = sumTotal log + recTotalSize r := by
  simp [sumTotal]

/-- A single append (successful or failed) preserves the size-sum
invariant. -/
theorem append_preserves_sum (b : Branch) (r : DeltaRec)
    (h : sumTotal b.log = b.deltaSize) :
    sumTotal (daxfs_delta_append b r).2.log = (daxfs_delta_append b r).2.deltaSize := by
  simp only [daxfs_delta_append, daxfs_delta_alloc]
  split <;> simp_all [sumTotal_append]

/-- The size-sum invariant is preserved by any sequence of appends. -/
theorem applyAppends_preserves_sum (rs : List DeltaRec) :
    ∀ b : Branch, sumTotal b.log = b.deltaSize →
      sumTotal (applyAppends b rs).log = (applyAppends b rs).deltaSize := by
  induction rs with
  | nil => intro b h; simpa [applyAppends] using h
  | cons r rest ih =>
      intro b h
      have hstep := append_preserves_sum b r h
      simpa [applyAppends] using ih (daxfs_delta_append b r).2 hstep

/-- Claim C8.  For every branch (every capacity) and every sequence of
append operations applied to a freshly forked branch, the sum of
`total_size` over the records stored in the delta log equals the
branch's `delta_log_size`: each successful append grows the log by one
record and the size counter by exactly that record's `total_size`, and
a failed append changes neither. -/
theorem delta_log_size_is_sum (cap : Nat) (rs : List DeltaRec) :
    sumTotal (applyAppends (freshBranch cap) rs).log
      = (applyAppends (freshBranch cap) rs).deltaSize := by
  exact applyAppends_preserves_sum rs (freshBranch cap) (by simp [freshBranch, sumTotal])

/-- Claim C10.  For every branch whose inode index has no entry for an
inode, `daxfs_delta_is_deleted` returns false; consequently, when no
branch of the chain has an entry for the inode, resolution falls
through the whole chain to the base image. -/
theorem untouched_inode_not_deleted (chain : List (List DeltaRec))
    (base : Option BaseImg) (ino : Nat)
    (h : ∀ log ∈ chain, branchInodeIdx log ino = none) :
    (∀ log ∈ chain, daxfs_delta_is_deleted log ino = false)
    ∧ daxfs_resolve_inode chain base ino = daxfs_base_resolve base ino := by
  constructor
  · intro log hl
    simp [daxfs_delta_is_deleted, h log hl]
  · induction chain with
    | nil => rfl
    | cons log rest ih =>
        have hhead := h log (List.mem_cons_self log rest)
        have htail : ∀ l ∈ rest, branchInodeIdx l ino = none := by
          intro l hl; exact h l (List.mem_cons_of_mem log hl)
        simp [daxfs_resolve_inode, daxfs_delta_is_deleted, hhead, ih htail]

/-! ### Idempotence of index construction (C9) -/

/-- The paired index fold splits into independent inode and dirent
folds: no record's inode update reads the dirent index or vice versa. -/
theorem buildFold_eq (ps : List (Nat × DeltaRec)) :
    ∀ (ii : InodeIdx) (di : DirentIdx), buildFold ps ii di = (iFold ps ii, dFold ps di) := by
  induction ps with
  | nil => intro ii di; rfl
  | cons p t ih =>
      intro ii di
      have h := ih (inodeIndexUpdate p.1 p.2 ii) (direntIndexUpdate p.1 p.2 di)
      simpa [buildFold, iFold, dFold, deltaIndexUpdate] using h

/-- `index_add_inode` as a single-key overwrite by an `IOp`. -/
theorem index_add_inode_eq (idx : InodeIdx) (ino hdrIdx : Nat) (record : DeltaRec)
    (deleted : Bool) (sizeOpt modeOpt : Option Nat) :
    index_add_inode idx ino hdrIdx record deleted sizeOpt modeOpt
      = fun k => if k = ino then
          some (applyIOp ⟨hdrIdx, record, deleted, sizeOpt, modeOpt⟩ (idx ino))
        else idx k := by
  funext k
  simp only [index_add_inode, applyIOp]
  cases h : idx ino <;> simp [h, sizeD, modeD]

/-- `inodeIndexUpdate` performs exactly the update described by
`inodeOpOf`. -/
theorem inodeIndexUpdate_eq (i : Nat) (r : DeltaRec) (ii : InodeIdx) :
    inodeIndexUpdate i r ii
      = match inodeOpOf (i, r) with
        | none => ii
        | some q => fun k => if k = q.1 then some (applyIOp q.2 (ii q.1)) else ii k := by
  cases r <;> simp [inodeIndexUpdate, inodeOpOf, index_add_inode_eq]

/-- Unfolding `applyIOps` on a cons. -/
theorem applyIOps_cons (o : IOp) (l : List IOp) (x : Option InodeEntry) :
    applyIOps (o :: l) x = applyIOps l (some (applyIOp o x)) := rfl

/-- The inode fold, observed at one inode, is the fold of that inode's
updates over its entry. -/
theorem iFold_pointwise (ps : List (Nat × DeltaRec)) :
    ∀ (ii : InodeIdx) (k : Nat), iFold ps ii k = applyIOps (iopsFor k ps) (ii k) := by
  induction ps with
  | nil => intro ii k; rfl
  | cons p t ih =>
      intro ii k
      obtain ⟨i, r⟩ := p
      have hstep : iFold ((i, r) :: t) ii = iFold t (inodeIndexUpdate i r ii) := rfl
      rw [hstep, ih]
      cases hop : inodeOpOf (i, r) with
      | none =>
          have hupd : inodeIndexUpdate i r ii = ii := by
            rw [inodeIndexUpdate_eq, hop]
          have hops : iopsFor k ((i, r) :: t) = iopsFor k t := by
            simp [iopsFor, List.filterMap_cons, hop]
          rw [hupd, hops]
      | some q =>
          have hupd : inodeIndexUpdate i r ii
              = fun k' => if k' = q.1 then some (applyIOp q.2 (ii q.1)) else ii k' := by
            rw [inodeIndexUpdate_eq, hop]
          by_cases hk : q.1 = k
          · subst hk
            have hops : iopsFor q.1 ((i, r) :: t) = q.2 :: iopsFor q.1 t := by
              simp [iopsFor, List.filterMap_cons, hop]
            rw [hops, applyIOps_cons, hupd]
            simp
          · have hops : iopsFor k ((i, r) :: t) = iopsFor k t := by
              simp [iopsFor, List.filterMap_cons, hop, hk]
            rw [hops, hupd]
            simp [Ne.symm hk]

/-- The last element of a nonempty list exists. -/
theorem getLast?_cons_isSome {α : Type} (a : α) (l : List α) :
    ((a :: l).getLast?).isSome := by
  induction l generalizing a with
  | nil => rfl
  | cons b t ih => rw [List.getLast?_cons_cons]; exact ih b

/-- Peeling the head off `lastSizeOpt` under a default. -/
theorem lastSizeOpt_cons (o : IOp) (t : List IOp) (d : Nat) :
    (lastSizeOpt (o :: t)).getD d = (lastSizeOpt t).getD (o.sizeOpt.getD d) := by
  unfold lastSizeOpt
  cases hs : o.sizeOpt with
  | none => simp [List.filterMap_cons, hs]
  | some s =>
      simp only [List.filterMap_cons, hs]
      cases hf : List.filterMap IOp.sizeOpt t with
      | nil => simp [hf]
      | cons b l2 =>
          rw [List.getLast?_cons_cons]
          obtain ⟨v, hv⟩ := Option.isSome_iff_exists.mp (getLast?_cons_isSome b l2)
          simp [hv]

/-- Peeling the head off `lastModeOpt` under a default. -/
theorem lastModeOpt_cons (o : IOp) (t : List IOp) (d : Nat) :
    (lastModeOpt (o :: t)).getD d = (lastModeOpt t).getD (o.modeOpt.getD d) := by
  unfold lastModeOpt
  cases hs : o.modeOpt with
  | none => simp [List.filterMap_cons, hs]
  | some s =>
      simp only [List.filterMap_cons, hs]
      cases hf : List.filterMap IOp.modeOpt t with
      | nil => simp [hf]
      | cons b l2 =>
          rw [List.getLast?_cons_cons]
          obtain ⟨v, hv⟩ := Option.isSome_iff_exists.mp (getLast?_cons_isSome b l2)
          simp [hv]

/-- Closed form of a nonempty fold of inode updates: the last update
supplies header, record and `deleted`; size and mode come from the last
update that selects them, defaulting to the start entry's value. -/
theorem applyIOps_char (l : List IOp) (o : IOp) (h : l.getLast? = some o) :
    ∀ x : Option InodeEntry,
      applyIOps l x = some ⟨o.hdrIdx, o.record, o.deleted,
        (lastSizeOpt l).getD (sizeD x), (lastModeOpt l).getD (modeD x)⟩ := by
  induction l with
  | nil => simp at h
  | cons a t ih =>
      intro x
      cases t with
      | nil =>
          simp only [List.getLast?_singleton, Option.some.injEq] at h
          subst h
          rw [applyIOps_cons]
          show some (applyIOp a x) = _
          rw [lastSizeOpt_cons, lastModeOpt_cons]
          simp [applyIOp, lastSizeOpt, lastModeOpt, sizeD, modeD]
      | cons b t2 =>
          rw [List.getLast?_cons_cons] at h
          rw [applyIOps_cons, ih h (some (applyIOp a x)),
              lastSizeOpt_cons a (b :: t2) (sizeD x),
              lastModeOpt_cons a (b :: t2) (modeD x)]
          simp [sizeD, modeD, applyIOp]

/-- Collapsing a repeated default. -/
theorem getD_getD (a : Option Nat) (d : Nat) : a.getD (a.getD d) = a.getD d := by
  cases a <;> rfl

/-- Folding a key's inode updates twice is the same as folding once. -/
theorem applyIOps_idem (l : List IOp) (x : Option InodeEntry) :
    applyIOps l (applyIOps l x) = applyIOps l x := by
  cases l with
  | nil => rfl
  | cons a t =>
      obtain ⟨o, ho⟩ := Option.isSome_iff_exists.mp (getLast?_cons_isSome a t)
      rw [applyIOps_char (a :: t) o ho x,
          applyIOps_char (a :: t) o ho (some ⟨o.hdrIdx, o.record, o.deleted,
            (lastSizeOpt (a :: t)).getD (sizeD x), (lastModeOpt (a :: t)).getD (modeD x)⟩)]
      simp [sizeD, modeD, getD_getD]

/-- Re-running the inode-index construction over an already-built
inode index changes nothing. -/
theorem iFold_idem (ps : List (Nat × DeltaRec)) :
    iFold ps (iFold ps emptyInodeIdx) = iFold ps emptyInodeIdx := by
  funext k
  rw [iFold_pointwise, iFold_pointwise]
  exact applyIOps_idem _ _

/-- `direntIndexUpdate` performs exactly the keyed updates listed by
`direntOpsOf`, in order. -/
theorem direntIndexUpdate_eq (i : Nat) (r : DeltaRec) (di : DirentIdx) :
    direntIndexUpdate i r di = dFoldOps (direntOpsOf (i, r)) di := by
  cases r <;> rfl

/-- The dirent fold over records equals the fold over the flattened
keyed-update list. -/
theorem dFold_eq (ps : List (Nat × DeltaRec)) :
    ∀ di : DirentIdx, dFold ps di = dFoldOps (ps.flatMap direntOpsOf) di := by
  induction ps with
  | nil => intro di; rfl
  | cons p t ih =>
      intro di
      obtain ⟨i, r⟩ := p
      have hstep : dFold ((i, r) :: t) di = dFold t (direntIndexUpdate i r di) := rfl
      rw [hstep, ih, direntIndexUpdate_eq]
      simp [dFoldOps, List.foldl_append]

/-- The dirent fold, observed at one key, is the fold of that key's
updates over its entry. -/
theorem dFoldOps_pointwise (ops : List (DKey × DOp)) :
    ∀ (di : DirentIdx) (p : Nat) (n : Name),
      dFoldOps ops di p n = applyDOps (dopsFor p n ops) (di p n) := by
  induction ops with
  | nil => intro di p n; rfl
  | cons ko t ih =>
      intro di p n
      have hstep : dFoldOps (ko :: t) di = dFoldOps t (dApplyOne di ko) := rfl
      rw [hstep, ih]
      by_cases h : p = ko.1.1 ∧ n = ko.1.2
      · have hops : dopsFor p n (ko :: t) = ko.2 :: dopsFor p n t := by
          simp [dopsFor, List.filterMap_cons, h]
        have happ : (dApplyOne di ko) p n
            = some ⟨ko.2.hdrIdx, ko.2.record, ko.2.deleted⟩ := by
          simp [dApplyOne, index_add_dirent, h]
        rw [hops, happ]
        rfl
      · have hops : dopsFor p n (ko :: t) = dopsFor p n t := by
          simp [dopsFor, List.filterMap_cons, h]
        have happ : (dApplyOne di ko) p n = di p n := by
          simp [dApplyOne, index_add_dirent, h]
        rw [hops, happ]

/-- Folding a key's dirent updates twice is the same as folding once:
every dirent update overwrites the whole entry. -/
theorem applyDOps_idem (l : List DOp) (x : Option DirentEntry) :
    applyDOps l (applyDOps l x) = applyDOps l x := by
  cases l <;> rfl

/-- Re-running the dirent-index construction over an already-built
dirent index changes nothing. -/
theorem dFold_idem (ps : List (Nat × DeltaRec)) :
    dFold ps (dFold ps emptyDirentIdx) = dFold ps emptyDirentIdx := by
  funext p n
  simp only [dFold_eq, dFoldOps_pointwise]
  exact applyDOps_idem _ _

/-- Claim C9.  `daxfs_delta_build_index` is idempotent: for any fixed
delta-log contents, running the index construction a second time over
the indices produced by the first run yields exactly the same inode
and dirent indices (all fields: record pointer, `deleted`, size,
mode). -/
theorem build_index_idempotent (log : List DeltaRec) :
    daxfs_delta_build_index log (branchInodeIdx log) (branchDirentIdx log)
      = (branchInodeIdx log, branchDirentIdx log) := by
  unfold branchInodeIdx branchDirentIdx daxfs_delta_build_index
  simp only [buildFold_eq]
  rw [Prod.mk.injEq]
  exact ⟨iFold_idem _, dFold_idem _⟩

/-- Witness for C10: a chain of two branches that only touch inodes 2
and 3 never reports inode 5 deleted, and resolving inode 5 yields the
base image's answer. -/
theorem untouched_inode_not_deleted_witness :
    daxfs_delta_is_deleted [DeltaRec.create 1 2 480 [97]] 5 = false
    ∧ daxfs_resolve_inode [[.create 1 2 480 [97]], [.write 3 0 [9]]]
        (some ⟨[⟨5, 1, [104], 33188, 3, [1,2,3]⟩]⟩) 5
      = daxfs_base_resolve (some ⟨[⟨5, 1, [104], 33188, 3, [1,2,3]⟩]⟩) 5 := by
  have h := untouched_inode_not_deleted [[.create 1 2 480 [97]], [.write 3 0 [9]]]
    (some ⟨[⟨5, 1, [104], 33188, 3, [1,2,3]⟩]⟩) 5 (by decide)
  exact ⟨h.1 [DeltaRec.create 1 2 480 [97]] (by decide), h.2⟩

end Daxfs
